import Mathlib

/-!
Shallow embedding of the two scripts of the arvados/lightning plotting
code: `manhattan.py` (significance table construction, CSV threshold
export, per-chromosome plot partition) and `plot.py` (phenotype join and
category colouring).

Modelling conventions:
* Python's insertion-ordered dicts are association lists; `d[k] = v`
  keeps the position of an existing key and appends a new one
  (`dictInsert`), exactly as CPython does.
* The float `pow(10, -raw/1000000)` is modelled exactly: the pipeline
  carries the stored integer exponent `raw`, and `scoreReal` gives its
  real value.  The float comparison against `pow(10, -threshold)` is
  the exact-arithmetic test `scoreBelow`, proved equivalent to the real
  inequality in `scoreBelow_iff`.
* `sorted(..., key=...)` is the stable `List.insertionSort` on the
  embedded key (Python's sort is stable, and all stable sorts of a list
  under one total preorder coincide); contig-name string operations work
  on `List Char` (Python `str` comparison is code-point lexicographic,
  as for `List Char`).
-/

namespace Lightning

/-- A variant tag: `columns[0,i]` in `manhattan.py`, `int(annotation[0])`
in the annotation scan. -/
abbrev Tag := Nat

/-- One column of `onehot-columns.npy`: row 0 holds the tag id and row 4
the fixed-point significance encoding.  Modelled from the spec: the
matrix generator is outside the two scripts; the spec fixes the stored
value as the fixed-point encoding (scale 10^6) of a score in (0, 1], so
`raw` is a natural number. -/
structure Column where
  tag : Tag
  raw : Nat
deriving DecidableEq

/-- A coordinate `(annotation[4], int(annotation[5]))`. -/
structure Coord where
  contig : String
  pos : Nat
deriving DecidableEq

/-- The fields of one annotation CSV record that `manhattan.py` reads:
positions 0 (tag), 3 (relation), 4 (contig) and 5 (offset). -/
structure AnnotRecord where
  tag : Tag
  rel : String
  contig : String
  pos : Nat
deriving DecidableEq

/-- Python `d[k] = v` on an insertion-ordered dict: updating an existing
key keeps its original position, a new key is appended at the end. -/
def dictInsert {α β : Type} [DecidableEq α] (k : α) (v : β) : List (α × β) → List (α × β)
  | [] => [(k, v)]
  | (k', v') :: rest => if k' = k then (k', v) :: rest else (k', v') :: dictInsert k v rest

/-- Python `dict.get(k, default)` followed by `.getD`. -/
def dictGet {α β : Type} [DecidableEq α] [BEq α] (d : List (α × β)) (k : α) (dflt : β) : β :=
  (List.lookup k d).getD dflt

/-- One step of the `pvalue` loop of `manhattan.py` lines 26-31: append
this column's decoded score to the list for the column's tag (the score
`pow(10, -raw/1000000)` is carried as its exponent `raw`). -/
def pvalueStep (d : List (Tag × List Nat)) (c : Column) : List (Tag × List Nat) :=
  dictInsert c.tag (dictGet d c.tag [] ++ [c.raw]) d

/-- The `pvalue` dict of `manhattan.py`: tag number to list of scores in
column-encounter order. -/
def pvalue (columns : List Column) : List (Tag × List Nat) :=
  columns.foldl pvalueStep []

/-- Python `pvalue.get(tag, [])`. -/
def pvalueGet (d : List (Tag × List Nat)) (t : Tag) : List Nat :=
  dictGet d t []

/-- One annotation record of the `tilepos` scan, `manhattan.py` lines
36-42: a record whose relation field is exactly `"="` sets
`tilepos[tag] = (contig, offset)`; every other record is ignored. -/
def tileposStep (d : List (Tag × Coord)) (a : AnnotRecord) : List (Tag × Coord) :=
  if a.rel = "=" then dictInsert a.tag ⟨a.contig, a.pos⟩ d else d

/-- The `tilepos` dict built by scanning the annotation files in
directory-listing order. -/
def tilepos (files : List (List AnnotRecord)) : List (Tag × Coord) :=
  files.foldl (fun d file => file.foldl tileposStep d) []

/-- Python `s.lstrip('chr')`: drop leading characters drawn from the set
{'c', 'h', 'r'}. -/
def lstripChr (s : List Char) : List Char :=
  s.dropWhile (fun c => c = 'c' || c = 'h' || c = 'r')

/-- Python `s.zfill(w)`: left-pad with `'0'` to width `w`, keeping a
leading sign character in front of the padding. -/
def zfill (w : Nat) (s : List Char) : List Char :=
  if w ≤ s.length then s
  else
    match s with
    | c :: rest =>
        if c = '+' || c = '-' then c :: (List.replicate (w - s.length) '0' ++ rest)
        else List.replicate (w - s.length) '0' ++ (c :: rest)
    | [] => List.replicate w '0'

/-- Python `s[-1] > '9'` on the contig name (on an empty name Python
would raise IndexError; the scripts never sort one). -/
def lastGtNine (s : List Char) : Bool :=
  match s.getLast? with
  | some c => decide ('9' < c)
  | none => false

/-- The contig part of the sort key used at `manhattan.py` lines 47 and
54: `(contig[-1] > '9', contig.lstrip('chr').zfill(2))`. -/
def contigKey (contig : String) : Bool ×ₗ List Char :=
  toLex (lastGtNine contig.data, zfill 2 (lstripChr contig.data))

/-- The full sort key
`(contig[-1] > '9', contig.lstrip('chr').zfill(2), pos)` of the lambda
at `manhattan.py` lines 47 and 54. -/
def sortKey (c : Coord) : Bool ×ₗ (List Char ×ₗ Nat) :=
  toLex (lastGtNine c.contig.data, toLex (zfill 2 (lstripChr c.contig.data), c.pos))

/-- The comparison realising Python's key-based sort: item `a` may come
before item `b` when `sortKey a <= sortKey b`. -/
def itemRel (a b : Tag × Coord) : Prop := sortKey a.2 ≤ sortKey b.2

instance : DecidableRel itemRel :=
  fun a b => inferInstanceAs (Decidable (sortKey a.2 ≤ sortKey b.2))

/-- Python `sorted(tilepos.items(), key=...)`: a stable sort of the dict
items by `sortKey`.  Python's `sorted` is stable; `insertionSort` is the
stable sort of the library, and any two stable sorts agree. -/
def sortedItems (d : List (Tag × Coord)) : List (Tag × Coord) :=
  d.insertionSort itemRel

/-- One row of the plot table: `manhattan.py` lines 52-58 build three
parallel lists `#CHROM`, `POS`, `P`; index `i` of each corresponds to
one `Row` here, with `P` carried as the stored exponent. -/
structure Row where
  contig : String
  pos : Nat
  raw : Nat
deriving DecidableEq

/-- The `series` table of `manhattan.py` lines 52-58: for each sorted
`tilepos` item, one row per score of that tag (`pvalue.get(tag, [])`). -/
def series (columns : List Column) (files : List (List AnnotRecord)) : List Row :=
  (sortedItems (tilepos files)).flatMap (fun item =>
    (pvalueGet (pvalue columns) item.1).map (fun r => ⟨item.2.contig, item.2.pos, r⟩))

/-- The real value of a stored score: `pow(10, -raw/1000000)`. -/
noncomputable def scoreReal (raw : Nat) : ℝ := (10 : ℝ) ^ (-(raw : ℝ) / 1000000)

/-- The code's test `p < pow(10, -csv_threshold)` for
`p = pow(10, -raw/1000000)`, in exact arithmetic: the comparison holds
iff `threshold * 1000000 < raw`, written on the rational threshold's
numerator and denominator so that it evaluates by integer arithmetic;
`scoreBelow_iff` proves the equivalence with the real inequality. -/
def scoreBelow (threshold : ℚ) (raw : Nat) : Bool :=
  decide (threshold.num * 1000000 < (raw : Int) * (threshold.den : Int))

/-- One line `tag,contig,offset,p` of the threshold export file. -/
structure CsvLine where
  tag : Tag
  contig : String
  pos : Nat
  raw : Nat
deriving DecidableEq

/-- Lines 44-50 of `manhattan.py`: the threshold export.  `none` when the
export is skipped (`csv_threshold <= 0` or empty output path), otherwise
the emitted lines in emission order. -/
def csvExport (threshold : ℚ) (outPath : String)
    (columns : List Column) (files : List (List AnnotRecord)) : Option (List CsvLine) :=
  if 0 < threshold ∧ outPath ≠ "" then
    some ((sortedItems (tilepos files)).flatMap (fun item =>
      ((pvalueGet (pvalue columns) item.1).filter (scoreBelow threshold)).map
        (fun r => ⟨item.1, item.2.contig, item.2.pos, r⟩)))
  else none

/-- The unfiltered tagged row sequence underlying both the threshold
export and the series: the export loop at lines 47-50 of `manhattan.py`
visits exactly these (tag, contig, offset, score) tuples, in this order,
and prints the ones passing the threshold test. -/
def taggedRows (columns : List Column) (files : List (List AnnotRecord)) : List CsvLine :=
  (sortedItems (tilepos files)).flatMap (fun item =>
    (pvalueGet (pvalue columns) item.1).map (fun r => ⟨item.1, item.2.contig, item.2.pos, r⟩))

/-- The (contig, offset, p) projection of an export line: the part of a
`CsvLine` that also appears as a series `Row`. -/
def rowOfLine (ln : CsvLine) : Row := ⟨ln.contig, ln.pos, ln.raw⟩

/-- Lines 60-63 of `manhattan.py`: the keys of the `chroms` dict - the
distinct contigs of the series in first-appearance order - followed by
the explicitly added `None` key. -/
def chromKeys (rows : List Row) : List (Option String) :=
  (rows.foldl (fun acc r => if r.contig ∈ acc then acc else acc ++ [r.contig]) []).map some
    ++ [none]

/-- Python `s.rsplit('.', 1)` as the optional split at the last `'.'`:
`none` when the string has no dot. -/
def rsplitDot : List Char → Option (List Char × List Char)
  | [] => none
  | c :: rest =>
      match rsplitDot rest with
      | some (pre, post) => some (c :: pre, post)
      | none => if c = '.' then some ([], rest) else none

/-- Line 70 of `manhattan.py`: `'.{chrom}.'.join(output_file.rsplit('.', 1))`
(when the base name has no dot, `rsplit` returns a singleton and `join`
returns it unchanged). -/
def injectChrom (base : String) (chrom : String) : String :=
  match rsplitDot base.data with
  | some (pre, post) => ⟨pre ++ ('.' :: chrom.data) ++ ('.' :: post)⟩
  | none => base

/-- Lines 66-71 of `manhattan.py`: the output file chosen for one
`chroms` key; `if chrom:` is false for the `None` key and for an empty
contig name, leaving the base path unchanged. -/
def outputFileFor (base : String) : Option String → String
  | none => base
  | some c => if c = "" then base else injectChrom base c

/-- The list of plot files written by the loop at lines 66-85 of
`manhattan.py`, in loop order. -/
def outputFiles (rows : List Row) (base : String) : List String :=
  (chromKeys rows).map (outputFileFor base)

/-- Python `row[i]` with Python's negative-index convention, as used by
`plot.py` on phenotype records (an out-of-range access is a fatal input
error in the source; `""` stands in for the raised exception). -/
def field (row : List String) (i : Int) : String :=
  if 0 ≤ i then row.getD i.toNat "" else row.getD (row.length - (-i).toNat) ""

/-- The two caller-supplied column indices of `plot.py`
(`phenotype_cat1_column`, `phenotype_cat2_column`). -/
structure PhenoCfg where
  cat1 : Int
  cat2 : Int
deriving DecidableEq

/-- The mutable state of the phenotype scan of `plot.py`: the `labels`
and `category` dicts. -/
structure PhenoState where
  labels : List (String × String)
  category : List (String × Bool)
deriving DecidableEq

/-- Python `tag in sampleid` at `plot.py` line 49: the record's field 0
occurs in the sample id as a contiguous substring. -/
def matchesTok (row : List String) (sampleid : String) : Prop :=
  (field row 0).data <:+: sampleid.data

instance (row : List String) (sampleid : String) : Decidable (matchesTok row sampleid) :=
  List.decidableInfix _ _

/-- Lines 45-52 of `plot.py`, one phenotype record: field 0 is the match
token; every known sample whose id contains it as a substring gets its
label from column `cat1`, and is entered into `category` when
`cat2 >= 0` and that field is not the literal `"0"`. -/
def phenoStep (cfg : PhenoCfg) (samples : List String) (st : PhenoState)
    (row : List String) : PhenoState :=
  samples.foldl (fun st sampleid =>
    if matchesTok row sampleid then
      { labels := dictInsert sampleid (field row cfg.cat1) st.labels
        category := if 0 ≤ cfg.cat2 ∧ field row cfg.cat2 ≠ "0"
          then dictInsert sampleid true st.category else st.category }
    else st) st

/-- The phenotype scan of `plot.py` lines 41-52 over the phenotype files
in listing order, starting from empty `labels` and `category` dicts. -/
def phenoJoin (cfg : PhenoCfg) (samples : List String)
    (files : List (List (List String))) : PhenoState :=
  files.foldl (fun st file => file.foldl (phenoStep cfg samples) st) ⟨[], []⟩

/-- The literal `labelcolors` table of `plot.py` lines 55-87. -/
def labelcolors : List (String × String) :=
  [("PUR", "firebrick"), ("CLM", "firebrick"), ("MXL", "firebrick"), ("PEL", "firebrick"),
   ("1", "firebrick"),
   ("TSI", "green"), ("IBS", "green"), ("CEU", "green"), ("GBR", "green"), ("FIN", "green"),
   ("5", "green"),
   ("LWK", "coral"), ("MSL", "coral"), ("GWD", "coral"), ("YRI", "coral"), ("ESN", "coral"),
   ("ACB", "coral"), ("ASW", "coral"), ("4", "coral"),
   ("KHV", "royalblue"), ("CDX", "royalblue"), ("CHS", "royalblue"), ("CHB", "royalblue"),
   ("JPT", "royalblue"), ("2", "royalblue"),
   ("STU", "blueviolet"), ("ITU", "blueviolet"), ("BEB", "blueviolet"), ("GIH", "blueviolet"),
   ("PJL", "blueviolet"), ("3", "navy")]

/-- The `unknown_color` fallback of `plot.py` line 53. -/
def unknownColor : String := "grey"

/-- Lines 88-92 of `plot.py`, one sample: the palette colour when the
sample has a label and the label is in `labelcolors`, else the fallback. -/
def colorFor (labels : List (String × String)) (sampleid : String) : String :=
  match List.lookup sampleid labels with
  | some l => (List.lookup l labelcolors).getD unknownColor
  | none => unknownColor

/-- The `colors` list of `plot.py` lines 88-92: one colour per sample,
in sample-list order. -/
def colors (labels : List (String × String)) (samples : List String) : List String :=
  samples.map (colorFor labels)

/-! ## Helper lemmas -/

theorem pairwise_of_all {α : Type} {R : α → α → Prop} (h : ∀ a b, R a b) :
    ∀ l : List α, l.Pairwise R
  | [] => .nil
  | x :: xs => .cons (fun y _ => h x y) (pairwise_of_all h xs)

theorem sortedItems_pairwise (d : List (Tag × Coord)) :
    (sortedItems d).Pairwise (fun a b => sortKey a.2 ≤ sortKey b.2) := by
  haveI : IsTotal (Tag × Coord) itemRel := ⟨fun a b => le_total _ _⟩
  haveI : IsTrans (Tag × Coord) itemRel := ⟨fun a b c hab hbc => le_trans hab hbc⟩
  exact List.sorted_insertionSort itemRel d

theorem sortedItems_perm (d : List (Tag × Coord)) : (sortedItems d).Perm d :=
  List.perm_insertionSort itemRel d

/-- Full-key comparability projects to the contig part of the key, and to
the offsets when the contigs coincide. -/
theorem sortKey_le_proj {c1 c2 : Coord} (h : sortKey c1 ≤ sortKey c2) :
    contigKey c1.contig ≤ contigKey c2.contig ∧ (c1.contig = c2.contig → c1.pos ≤ c2.pos) := by
  unfold sortKey at h
  rw [Prod.Lex.le_iff] at h
  constructor
  · unfold contigKey
    rw [Prod.Lex.le_iff]
    rcases h with h | ⟨heq, h2⟩
    · exact Or.inl h
    · refine Or.inr ⟨heq, ?_⟩
      rw [Prod.Lex.le_iff] at h2
      rcases h2 with h2 | ⟨h2e, _⟩
      · exact le_of_lt h2
      · exact le_of_eq h2e
  · intro hc
    rcases h with h | ⟨_, h2⟩
    · rw [hc] at h
      exact absurd h (lt_irrefl _)
    · rw [Prod.Lex.le_iff] at h2
      rcases h2 with h2 | ⟨_, h2p⟩
      · rw [hc] at h2
        exact absurd h2 (lt_irrefl _)
      · exact h2p

/-! ## C1 -/

/-- C1: the series (the significance table) emits exactly one row per
score of each tag present in `tilepos`, scores defaulting to the empty
list for tags absent from `pvalue`; hence its length is the sum, over
the tags that have a coordinate, of their score-list lengths (a tag with
a coordinate but no score contributes zero rows, and a tag with scores
but no coordinate is never visited). -/
theorem significanceTable_row_count (columns : List Column) (files : List (List AnnotRecord)) :
    (series columns files).length
      = ((tilepos files).map (fun e => (pvalueGet (pvalue columns) e.1).length)).sum := by
  unfold series
  rw [List.length_flatMap]
  have h := (sortedItems_perm (tilepos files)).map
    (fun e : Tag × Coord => (pvalueGet (pvalue columns) e.1).length)
  simp only [Function.comp_def, List.length_map]
  exact List.Perm.sum_eq h

/-! ## C2 -/

/-- C2: in the emitted row sequence, any earlier row's contig-order key
is at most any later row's contig-order key whenever the contigs differ,
and offsets are non-decreasing within a single contig. -/
theorem series_ordered (columns : List Column) (files : List (List AnnotRecord)) :
    (series columns files).Pairwise (fun r1 r2 =>
      (r1.contig ≠ r2.contig → contigKey r1.contig ≤ contigKey r2.contig) ∧
      (r1.contig = r2.contig → r1.pos ≤ r2.pos)) := by
  unfold series
  rw [List.flatMap_def, List.pairwise_flatten]
  constructor
  · intro l hl
    rw [List.mem_map] at hl
    obtain ⟨item, _, rfl⟩ := hl
    rw [List.pairwise_map]
    refine pairwise_of_all ?_ _
    intro a b
    exact ⟨fun hne => absurd rfl hne, fun _ => le_rfl⟩
  · rw [List.pairwise_map]
    refine (sortedItems_pairwise (tilepos files)).imp ?_
    intro a b hab x hx y hy
    rw [List.mem_map] at hx hy
    obtain ⟨rx, _, rfl⟩ := hx
    obtain ⟨ry, _, rfl⟩ := hy
    have h := sortKey_le_proj hab
    exact ⟨fun _ => h.1, fun hc => h.2 hc⟩

/-! ## Dict lemmas -/

theorem lookup_dictInsert_self {α β : Type} [DecidableEq α] [BEq α] [LawfulBEq α]
    (k : α) (v : β) : ∀ d : List (α × β), List.lookup k (dictInsert k v d) = some v
  | [] => by simp [dictInsert]
  | (k', v') :: rest => by
    by_cases h : k' = k
    · simp [dictInsert, h]
    · simp only [dictInsert, if_neg h, List.lookup_cons]
      have hne : (k == k') = false := by simp [Ne.symm h]
      simp [hne, lookup_dictInsert_self k v rest]

theorem lookup_dictInsert_ne {α β : Type} [DecidableEq α] [BEq α] [LawfulBEq α]
    {k' k : α} (v : β) (h : k' ≠ k) :
    ∀ d : List (α × β), List.lookup k' (dictInsert k v d) = List.lookup k' d
  | [] => by simp [dictInsert, h]
  | (a, b) :: rest => by
    by_cases ha : a = k
    · subst ha
      have hne : (k' == a) = false := by simp [h]
      simp [dictInsert, List.lookup_cons, hne]
    · simp only [dictInsert, if_neg ha, List.lookup_cons]
      cases hk : (k' == a) with
      | true => simp
      | false => simp [lookup_dictInsert_ne v h rest]

/-! ## Phenotype join lemmas -/

theorem phenoStep_labels_lookup (cfg : PhenoCfg) (row : List String) (s : String) :
    ∀ (samples : List String) (st : PhenoState),
    List.lookup s (phenoStep cfg samples st row).labels =
      if s ∈ samples ∧ matchesTok row s then some (field row cfg.cat1)
      else List.lookup s st.labels
  | [], st => by simp [phenoStep]
  | x :: xs, st => by
    have hstep : phenoStep cfg (x :: xs) st row
        = phenoStep cfg xs
            (if matchesTok row x then
              { labels := dictInsert x (field row cfg.cat1) st.labels
                category := if 0 ≤ cfg.cat2 ∧ field row cfg.cat2 ≠ "0"
                  then dictInsert x true st.category else st.category }
            else st) row := by
      simp only [phenoStep, List.foldl_cons]
    rw [hstep, phenoStep_labels_lookup cfg row s xs _]
    by_cases hin : s ∈ xs ∧ matchesTok row s
    · simp [hin, List.mem_cons, hin.1, hin.2]
    · rw [if_neg hin]
      by_cases hm : matchesTok row x
      · rw [if_pos hm]
        by_cases hx : x = s
        · subst hx
          rw [lookup_dictInsert_self]
          simp only [List.mem_cons, true_or, true_and]
          rw [if_pos hm]
        · rw [lookup_dictInsert_ne _ (Ne.symm hx)]
          have : ¬(s ∈ x :: xs ∧ matchesTok row s) := by
            intro hc
            rcases List.mem_cons.mp hc.1 with h | h
            · exact hx h.symm
            · exact hin ⟨h, hc.2⟩
          rw [if_neg this]
      · rw [if_neg hm]
        have : ¬(s ∈ x :: xs ∧ matchesTok row s) := by
          intro hc
          rcases List.mem_cons.mp hc.1 with h | h
          · exact hm (h ▸ hc.2)
          · exact hin ⟨h, hc.2⟩
        rw [if_neg this]

theorem phenoStep_category_lookup (cfg : PhenoCfg) (row : List String) (s : String) :
    ∀ (samples : List String) (st : PhenoState),
    List.lookup s (phenoStep cfg samples st row).category =
      if s ∈ samples ∧ matchesTok row s ∧ 0 ≤ cfg.cat2 ∧ field row cfg.cat2 ≠ "0"
      then some true else List.lookup s st.category
  | [], st => by simp [phenoStep]
  | x :: xs, st => by
    have hstep : phenoStep cfg (x :: xs) st row
        = phenoStep cfg xs
            (if matchesTok row x then
              { labels := dictInsert x (field row cfg.cat1) st.labels
                category := if 0 ≤ cfg.cat2 ∧ field row cfg.cat2 ≠ "0"
                  then dictInsert x true st.category else st.category }
            else st) row := by
      simp only [phenoStep, List.foldl_cons]
    rw [hstep, phenoStep_category_lookup cfg row s xs _]
    by_cases hin : s ∈ xs ∧ matchesTok row s ∧ 0 ≤ cfg.cat2 ∧ field row cfg.cat2 ≠ "0"
    · simp [hin, List.mem_cons, hin.1, hin.2.1, hin.2.2.1, hin.2.2.2]
    · rw [if_neg hin]
      by_cases hm : matchesTok row x
      · rw [if_pos hm]
        by_cases hflag : 0 ≤ cfg.cat2 ∧ field row cfg.cat2 ≠ "0"
        · rw [if_pos hflag]
          by_cases hx : x = s
          · subst hx
            rw [lookup_dictInsert_self]
            have : x ∈ x :: xs ∧ matchesTok row x ∧ 0 ≤ cfg.cat2 ∧ field row cfg.cat2 ≠ "0" :=
              ⟨List.mem_cons_self _ _, hm, hflag.1, hflag.2⟩
            rw [if_pos this]
          · rw [lookup_dictInsert_ne _ (Ne.symm hx)]
            have : ¬(s ∈ x :: xs ∧ matchesTok row s ∧ 0 ≤ cfg.cat2 ∧ field row cfg.cat2 ≠ "0") := by
              intro hc
              rcases List.mem_cons.mp hc.1 with h | h
              · exact hx h.symm
              · exact hin ⟨h, hc.2⟩
            rw [if_neg this]
        · rw [if_neg hflag]
          have : ¬(s ∈ x :: xs ∧ matchesTok row s ∧ 0 ≤ cfg.cat2 ∧ field row cfg.cat2 ≠ "0") := by
            intro hc
            exact hflag ⟨hc.2.2.1, hc.2.2.2⟩
          rw [if_neg this]
      · rw [if_neg hm]
        have : ¬(s ∈ x :: xs ∧ matchesTok row s ∧ 0 ≤ cfg.cat2 ∧ field row cfg.cat2 ≠ "0") := by
          intro hc
          rcases List.mem_cons.mp hc.1 with h | h
          · exact hm (h ▸ hc.2.1)
          · exact hin ⟨h, hc.2⟩
        rw [if_neg this]

theorem phenoFold_labels_lookup (cfg : PhenoCfg) (samples : List String) (s : String)
    (hs : s ∈ samples) : ∀ (recs : List (List String)) (st : PhenoState),
    List.lookup s (recs.foldl (phenoStep cfg samples) st).labels =
      match (recs.filter (fun row => decide (matchesTok row s))).getLast? with
      | some row => some (field row cfg.cat1)
      | none => List.lookup s st.labels
  | [], st => by simp
  | r :: recs, st => by
    rw [List.foldl_cons, phenoFold_labels_lookup cfg samples s hs recs _, List.filter_cons]
    by_cases hm : matchesTok r s
    · rw [if_pos (by simpa using hm), List.getLast?_cons]
      cases hlast : (recs.filter (fun row => decide (matchesTok row s))).getLast? with
      | some row => simp [hlast]
      | none =>
        simp only [hlast, Option.getD_none]
        rw [phenoStep_labels_lookup, if_pos ⟨hs, hm⟩]
    · rw [if_neg (by simpa using hm)]
      cases hlast : (recs.filter (fun row => decide (matchesTok row s))).getLast? with
      | some row => simp [hlast]
      | none =>
        simp only [hlast]
        rw [phenoStep_labels_lookup, if_neg (fun hc => hm hc.2)]

theorem phenoFold_category_lookup (cfg : PhenoCfg) (samples : List String) (s : String)
    (hs : s ∈ samples) : ∀ (recs : List (List String)) (st : PhenoState),
    List.lookup s (recs.foldl (phenoStep cfg samples) st).category =
      if 0 ≤ cfg.cat2 ∧ ∃ row ∈ recs, matchesTok row s ∧ field row cfg.cat2 ≠ "0"
      then some true else List.lookup s st.category
  | [], st => by simp
  | r :: recs, st => by
    rw [List.foldl_cons, phenoFold_category_lookup cfg samples s hs recs _]
    by_cases htail : 0 ≤ cfg.cat2 ∧ ∃ row ∈ recs, matchesTok row s ∧ field row cfg.cat2 ≠ "0"
    · rw [if_pos htail]
      have : 0 ≤ cfg.cat2 ∧ ∃ row ∈ r :: recs, matchesTok row s ∧ field row cfg.cat2 ≠ "0" :=
        ⟨htail.1, by
          obtain ⟨row, hrow, hp⟩ := htail.2
          exact ⟨row, List.mem_cons_of_mem _ hrow, hp⟩⟩
      rw [if_pos this]
    · rw [if_neg htail, phenoStep_category_lookup]
      by_cases hhead : matchesTok r s ∧ 0 ≤ cfg.cat2 ∧ field r cfg.cat2 ≠ "0"
      · rw [if_pos ⟨hs, hhead⟩]
        have : 0 ≤ cfg.cat2 ∧ ∃ row ∈ r :: recs, matchesTok row s ∧ field row cfg.cat2 ≠ "0" :=
          ⟨hhead.2.1, r, List.mem_cons_self _ _, hhead.1, hhead.2.2⟩
        rw [if_pos this]
      · rw [if_neg (fun hc => hhead hc.2)]
        have : ¬(0 ≤ cfg.cat2 ∧ ∃ row ∈ r :: recs, matchesTok row s ∧ field row cfg.cat2 ≠ "0") := by
          intro hc
          obtain ⟨row, hrow, hp⟩ := hc.2
          rcases List.mem_cons.mp hrow with h | h
          · exact hhead ⟨h ▸ hp.1, hc.1, h ▸ hp.2⟩
          · exact htail ⟨hc.1, row, h, hp⟩
        rw [if_neg this]

theorem phenoJoin_eq_flatten (cfg : PhenoCfg) (samples : List String)
    (files : List (List (List String))) :
    phenoJoin cfg samples files = (files.flatten).foldl (phenoStep cfg samples) ⟨[], []⟩ := by
  unfold phenoJoin
  rw [List.foldl_flatten]

/-! ## C4 -/

/-- C4 (amended): in the phenotype join, every sample identifier that
contains a record's field-0 token as a substring receives that record's
label, and when several records match the same sample the LAST match
wins for the label; the flag, however, is sticky rather than
last-match: a sample is flagged iff the configured second column index
is non-negative and SOME matching record (not necessarily the last) has
a field there that is not the literal `"0"`. -/
theorem pheno_label_last_match_flag_sticky (cfg : PhenoCfg) (samples : List String)
    (files : List (List (List String))) (s : String) (hs : s ∈ samples) :
    List.lookup s (phenoJoin cfg samples files).labels
      = ((files.flatten.filter (fun row => decide (matchesTok row s))).getLast?).map
          (fun row => field row cfg.cat1) ∧
    (dictGet (phenoJoin cfg samples files).category s false = true ↔
      0 ≤ cfg.cat2 ∧ ∃ row ∈ files.flatten, matchesTok row s ∧ field row cfg.cat2 ≠ "0") := by
  rw [phenoJoin_eq_flatten]
  constructor
  · rw [phenoFold_labels_lookup cfg samples s hs]
    cases (files.flatten.filter (fun row => decide (matchesTok row s))).getLast? <;> simp
  · rw [dictGet, phenoFold_category_lookup cfg samples s hs]
    by_cases h : 0 ≤ cfg.cat2 ∧ ∃ row ∈ files.flatten, matchesTok row s ∧ field row cfg.cat2 ≠ "0"
    · rw [if_pos h]
      simpa using h
    · rw [if_neg h]
      simpa using h

/-- Witness for C4: the spec's own substring example. Both samples
`HG00100` and `HG001005` contain the token `HG00100` of both records,
and both end with the last record's label `L2`. -/
theorem pheno_label_last_match_flag_sticky_witness :
    List.lookup "HG00100" (phenoJoin ⟨1, 2⟩ ["HG00100", "HG001005"]
        [[["HG00100", "L1", "1"], ["HG00100", "L2", "0"]]]).labels = some "L2" ∧
    List.lookup "HG001005" (phenoJoin ⟨1, 2⟩ ["HG00100", "HG001005"]
        [[["HG00100", "L1", "1"], ["HG00100", "L2", "0"]]]).labels = some "L2" := by
  constructor
  · rw [(pheno_label_last_match_flag_sticky ⟨1, 2⟩ ["HG00100", "HG001005"]
      [[["HG00100", "L1", "1"], ["HG00100", "L2", "0"]]] "HG00100" (by decide)).1]
    decide
  · rw [(pheno_label_last_match_flag_sticky ⟨1, 2⟩ ["HG00100", "HG001005"]
      [[["HG00100", "L1", "1"], ["HG00100", "L2", "0"]]] "HG001005" (by decide)).1]
    decide

/-- Counterexample to C4 as stated: with flag column 2, the sample `S`
matches two records whose flag fields are `"1"` then `"0"`.  The last
match has flag field `"0"`, so last-match-wins would leave `S`
unflagged; the code leaves `S` flagged. -/
theorem pheno_flag_not_last_match :
    dictGet (phenoJoin ⟨1, 2⟩ ["S"] [[["S", "A", "1"], ["S", "B", "0"]]]).category "S" false
        = true ∧
    ([["S", "A", "1"], ["S", "B", "0"]].filter (fun row => decide (matchesTok row "S"))).getLast?
        = some ["S", "B", "0"] ∧
    field ["S", "B", "0"] 2 = "0" := by
  decide

/-! ## C10 -/

/-- C10: the category flag is monotone over the processing of phenotype
records - it is only ever set, never cleared - and after all files are
processed a sample (present in the sample list, with the flag column
configured) is flagged iff at least one matching record has a non-`"0"`
entry in the flag column. -/
theorem category_flag_monotone_and_final (cfg : PhenoCfg) (samples : List String)
    (files : List (List (List String))) (s : String) (hs : s ∈ samples) (hc : 0 ≤ cfg.cat2) :
    (∀ st : PhenoState, List.lookup s st.category = some true →
      List.lookup s ((files.flatten).foldl (phenoStep cfg samples) st).category = some true) ∧
    (dictGet (phenoJoin cfg samples files).category s false = true ↔
      ∃ row ∈ files.flatten, matchesTok row s ∧ field row cfg.cat2 ≠ "0") := by
  constructor
  · intro st hst
    rw [phenoFold_category_lookup cfg samples s hs]
    by_cases h : 0 ≤ cfg.cat2 ∧ ∃ row ∈ files.flatten, matchesTok row s ∧ field row cfg.cat2 ≠ "0"
    · rw [if_pos h]
    · rw [if_neg h]
      exact hst
  · rw [phenoJoin_eq_flatten, dictGet, phenoFold_category_lookup cfg samples s hs]
    by_cases h : ∃ row ∈ files.flatten, matchesTok row s ∧ field row cfg.cat2 ≠ "0"
    · rw [if_pos ⟨hc, h⟩]
      simpa using h
    · rw [if_neg (fun hx => h hx.2)]
      simpa using h

/-- Witness for C10: the flag set by the first record survives a later
matching record with flag field `"0"`. -/
theorem category_flag_monotone_and_final_witness :
    dictGet (phenoJoin ⟨1, 2⟩ ["S"] [[["S", "A", "1"], ["S", "B", "0"]]]).category "S" false
        = true := by
  rw [(category_flag_monotone_and_final ⟨1, 2⟩ ["S"] [[["S", "A", "1"], ["S", "B", "0"]]] "S"
    (by decide) (by decide)).2]
  decide

/-! ## Threshold comparison bridge -/

/-- The exact-arithmetic form `scoreBelow` of the source's float test is
the real inequality `p < 10^(-threshold)` for `p = 10^(-raw/1000000)`. -/
theorem scoreBelow_iff (threshold : ℚ) (raw : Nat) :
    scoreBelow threshold raw = true ↔ scoreReal raw < (10 : ℝ) ^ (-(threshold : ℝ)) := by
  unfold scoreBelow scoreReal
  rw [decide_eq_true_eq, Real.rpow_lt_rpow_left_iff (by norm_num : (1 : ℝ) < 10)]
  have hden : (0 : ℝ) < (threshold.den : ℝ) := by exact_mod_cast threshold.den_pos
  rw [neg_div, neg_lt_neg_iff, Rat.cast_def,
    div_lt_div_iff₀ hden (by norm_num : (0 : ℝ) < 1000000)]
  constructor
  · intro h
    have h' : ((threshold.num * 1000000 : ℤ) : ℝ) < (((raw : ℤ) * (threshold.den : ℤ) : ℤ) : ℝ) := by
      exact_mod_cast h
    push_cast at h'
    linarith
  · intro h
    have h' : ((threshold.num * 1000000 : ℤ) : ℝ) < (((raw : ℤ) * (threshold.den : ℤ) : ℤ) : ℝ) := by
      push_cast
      linarith
    exact_mod_cast h'

/-! ## C6 -/

/-- C6: every significance score carried by the `pvalue` index is
`10^(-raw/1000000)` for its stored fixed-point integer `raw`, and the
derived value lies in the interval (0, 1]. -/
theorem score_derivation_and_range (columns : List Column) (t : Tag) (raw : Nat)
    (_hmem : raw ∈ pvalueGet (pvalue columns) t) :
    scoreReal raw = (10 : ℝ) ^ (-(raw : ℝ) / 1000000) ∧
    0 < scoreReal raw ∧ scoreReal raw ≤ 1 := by
  refine ⟨rfl, Real.rpow_pos_of_pos (by norm_num) _, ?_⟩
  apply Real.rpow_le_one_of_one_le_of_nonpos (by norm_num)
  exact div_nonpos_of_nonpos_of_nonneg (neg_nonpos.mpr (Nat.cast_nonneg raw)) (by norm_num)

/-- Witness for C6 at a concrete stored integer of a concrete matrix. -/
theorem score_derivation_and_range_witness :
    (5 : Nat) ∈ pvalueGet (pvalue [⟨1, 5⟩]) 1 ∧ 0 < scoreReal 5 ∧ scoreReal 5 ≤ 1 :=
  ⟨by decide, (score_derivation_and_range [⟨1, 5⟩] 1 5 (by decide)).2⟩

/-! ## C5 -/

/-- C5: with a positive threshold and a non-empty destination the export
contains one line `tag,contig,offset,p` for exactly the rows passing the
threshold test (which is the exact comparison `p < 10^(-threshold)`), in
row order; with threshold <= 0 or an empty destination the export is
skipped entirely. -/
theorem csv_threshold_export (threshold : ℚ) (outPath : String)
    (columns : List Column) (files : List (List AnnotRecord)) :
    ((threshold ≤ 0 ∨ outPath = "") → csvExport threshold outPath columns files = none) ∧
    (0 < threshold → outPath ≠ "" →
      csvExport threshold outPath columns files
        = some ((taggedRows columns files).filter (fun ln => scoreBelow threshold ln.raw))) ∧
    (∀ r : Nat, scoreBelow threshold r = true ↔ scoreReal r < (10 : ℝ) ^ (-(threshold : ℝ))) := by
  refine ⟨?_, ?_, fun r => scoreBelow_iff threshold r⟩
  · intro h
    unfold csvExport
    rw [if_neg]
    intro hc
    rcases h with h | h
    · exact absurd hc.1 (not_lt.mpr h)
    · exact hc.2 h
  · intro h1 h2
    unfold csvExport
    rw [if_pos ⟨h1, h2⟩]
    congr 1
    unfold taggedRows
    rw [List.filter_flatMap]
    refine List.flatMap_congr ?_
    intro item _
    rw [List.filter_map]
    rfl

/-- Witness for C5: with threshold 10, the score 1e-11 (raw 11000000) is
exported and the score 1e-9 (raw 9000000) is not; with threshold 0 the
export is skipped. -/
theorem csv_threshold_export_witness :
    csvExport 10 "out.csv" [⟨9, 11000000⟩, ⟨9, 9000000⟩] [[⟨9, "=", "chr1", 5⟩]]
        = some [⟨9, "chr1", 5, 11000000⟩] ∧
    csvExport 0 "out.csv" [⟨9, 11000000⟩, ⟨9, 9000000⟩] [[⟨9, "=", "chr1", 5⟩]] = none := by
  constructor
  · rw [(csv_threshold_export 10 "out.csv" [⟨9, 11000000⟩, ⟨9, 9000000⟩]
      [[⟨9, "=", "chr1", 5⟩]]).2.1 (by norm_num) (by decide)]
    decide
  · exact (csv_threshold_export 0 "out.csv" [⟨9, 11000000⟩, ⟨9, 9000000⟩]
      [[⟨9, "=", "chr1", 5⟩]]).1 (Or.inl le_rfl)

/-! ## C9 -/

/-- C9: the threshold export is a filtered refinement of the series -
both iterate the joined data under the same sort key, so projecting each
exported line to its (contig, offset, p) row yields exactly the series
filtered by the threshold test, in the same relative order. -/
theorem export_refines_series (threshold : ℚ) (outPath : String)
    (columns : List Column) (files : List (List AnnotRecord))
    (h1 : 0 < threshold) (h2 : outPath ≠ "") :
    ∃ lines, csvExport threshold outPath columns files = some lines ∧
      lines.map rowOfLine
        = (series columns files).filter (fun r => scoreBelow threshold r.raw) := by
  refine ⟨_, by unfold csvExport; rw [if_pos ⟨h1, h2⟩], ?_⟩
  unfold series
  rw [List.map_flatMap, List.filter_flatMap]
  refine List.flatMap_congr ?_
  intro item _
  rw [List.map_map, List.filter_map]
  rfl

/-- Witness for C9 at a concrete run: one of two scores passes the
threshold, and the exported line projects to the one surviving series
row. -/
theorem export_refines_series_witness :
    ∃ lines, csvExport 10 "out.csv" [⟨9, 11000000⟩, ⟨9, 9000000⟩] [[⟨9, "=", "chr1", 5⟩]]
        = some lines ∧
      lines.map rowOfLine
        = (series [⟨9, 11000000⟩, ⟨9, 9000000⟩] [[⟨9, "=", "chr1", 5⟩]]).filter
            (fun r => scoreBelow 10 r.raw) :=
  export_refines_series 10 "out.csv" [⟨9, 11000000⟩, ⟨9, 9000000⟩] [[⟨9, "=", "chr1", 5⟩]]
    (by norm_num) (by decide)

/-! ## C7 -/

theorem chromAccum_nodup : ∀ (rows : List Row) (acc : List String), acc.Nodup →
    (rows.foldl (fun acc r => if r.contig ∈ acc then acc else acc ++ [r.contig]) acc).Nodup
  | [], _, h => h
  | r :: rows, acc, h => by
    rw [List.foldl_cons]
    by_cases hc : r.contig ∈ acc
    · simpa [hc] using chromAccum_nodup rows acc h
    · have h' : (acc ++ [r.contig]).Nodup := by simp [List.nodup_append, h, hc]
      simpa [hc] using chromAccum_nodup rows (acc ++ [r.contig]) h'

theorem chromAccum_mem : ∀ (rows : List Row) (acc : List String) (x : String),
    (x ∈ rows.foldl (fun acc r => if r.contig ∈ acc then acc else acc ++ [r.contig]) acc) ↔
      x ∈ acc ∨ x ∈ rows.map Row.contig
  | [], acc, x => by simp
  | r :: rows, acc, x => by
    rw [List.foldl_cons]
    by_cases hc : r.contig ∈ acc
    · simp only [if_pos hc, chromAccum_mem rows acc x, List.map_cons, List.mem_cons]
      constructor
      · rintro (h | h)
        · exact Or.inl h
        · exact Or.inr (Or.inr h)
      · rintro (h | h | h)
        · exact Or.inl h
        · exact Or.inl (h.symm ▸ hc)
        · exact Or.inr h
    · simp only [if_neg hc, chromAccum_mem rows (acc ++ [r.contig]) x, List.map_cons,
        List.mem_cons, List.mem_append, List.mem_singleton]
      tauto

/-- C7: per-chromosome output produces one artifact per distinct contig
present in the table plus one all-contigs artifact (so, distinct-contig
count plus one files in total), and on a table spanning contigs chr1 and
chr2 with base `out.png` the artifacts are exactly `out.chr1.png`,
`out.chr2.png` and `out.png`, each per-contig name formed by inserting
the contig before the final extension. -/
theorem per_chromosome_partition :
    (∀ (rows : List Row) (base : String),
      (outputFiles rows base).length = (rows.map Row.contig).toFinset.card + 1) ∧
    outputFiles [⟨"chr1", 10, 1⟩, ⟨"chr2", 20, 2⟩] "out.png"
      = ["out.chr1.png", "out.chr2.png", "out.png"] := by
  constructor
  · intro rows base
    unfold outputFiles chromKeys
    rw [List.length_map, List.length_append, List.length_map]
    have hnd := chromAccum_nodup rows [] List.nodup_nil
    rw [← List.toFinset_card_of_nodup hnd]
    have : (rows.foldl (fun acc r => if r.contig ∈ acc then acc else acc ++ [r.contig])
        []).toFinset = (rows.map Row.contig).toFinset := by
      ext x
      simp [chromAccum_mem rows [] x]
    rw [this]
    simp
  · decide

/-! ## C8 -/

/-- C8: the colour list is index-aligned with the sample list (same
length, and entry i is the colour of sample i), a sample whose label is
missing or not a key of the fixed label-colour table always gets the
single fallback colour, and the fallback colour is not a palette
colour. -/
theorem colors_fallback_and_alignment (labels : List (String × String)) (samples : List String) :
    (colors labels samples).length = samples.length ∧
    (∀ i : Nat, (colors labels samples)[i]? = (samples[i]?).map (colorFor labels)) ∧
    (∀ s : String, (List.lookup s labels = none ∨
        ∃ l, List.lookup s labels = some l ∧ List.lookup l labelcolors = none) →
      colorFor labels s = unknownColor) ∧
    unknownColor ∉ labelcolors.map Prod.snd := by
  refine ⟨List.length_map _ _, ?_, ?_, by decide⟩
  · intro i
    rw [colors, List.getElem?_map]
  · intro s hs
    rcases hs with h | ⟨l, h1, h2⟩
    · rw [colorFor, h]
    · rw [colorFor, h1]
      show (List.lookup l labelcolors).getD unknownColor = unknownColor
      rw [h2]
      rfl

/-- Witness for C8: a sample with a label outside the table and a sample
with no label both get the fallback colour. -/
theorem colors_fallback_and_alignment_witness :
    colorFor [("S", "ZZZ")] "S" = unknownColor ∧ colorFor [("S", "ZZZ")] "T" = unknownColor := by
  have h := colors_fallback_and_alignment [("S", "ZZZ")] ["S", "T"]
  exact ⟨h.2.2.1 "S" (Or.inr ⟨"ZZZ", by decide, by decide⟩), h.2.2.1 "T" (Or.inl (by decide))⟩

/-! ## C3: dict-key and tilepos characterisation lemmas -/

theorem mem_keys_dictInsert {α β : Type} [DecidableEq α] (k x : α) (v : β) :
    ∀ d : List (α × β), (x ∈ (dictInsert k v d).map Prod.fst ↔ x ∈ d.map Prod.fst ∨ x = k)
  | [] => by simp [dictInsert]
  | (a, b) :: rest => by
    by_cases ha : a = k
    · subst ha
      have hins : dictInsert a v ((a, b) :: rest) = (a, v) :: rest := by simp [dictInsert]
      rw [hins]
      simp only [List.map_cons, List.mem_cons]
      tauto
    · simp only [dictInsert, if_neg ha, List.map_cons, List.mem_cons,
        mem_keys_dictInsert k x v rest]
      tauto

theorem nodup_keys_dictInsert {α β : Type} [DecidableEq α] (k : α) (v : β) :
    ∀ d : List (α × β), (d.map Prod.fst).Nodup → ((dictInsert k v d).map Prod.fst).Nodup
  | [] => fun _ => by simp [dictInsert]
  | (a, b) :: rest => fun h => by
    rw [List.map_cons, List.nodup_cons] at h
    by_cases ha : a = k
    · subst ha
      have hins : dictInsert a v ((a, b) :: rest) = (a, v) :: rest := by simp [dictInsert]
      rw [hins, List.map_cons, List.nodup_cons]
      exact h
    · simp only [dictInsert, if_neg ha, List.map_cons, List.nodup_cons]
      refine ⟨?_, nodup_keys_dictInsert k v rest h.2⟩
      rw [mem_keys_dictInsert]
      rintro (hm | hm)
      · exact h.1 hm
      · exact ha hm

/-- Whether an annotation record is the primary (`"="`) record for tag
`t`. -/
def isPrimaryFor (t : Tag) (a : AnnotRecord) : Bool :=
  decide (a.rel = "=" ∧ a.tag = t)

theorem lookup_foldl_tileposStep (t : Tag) :
    ∀ (recs : List AnnotRecord) (d : List (Tag × Coord)),
    List.lookup t (recs.foldl tileposStep d) =
      match (recs.filter (isPrimaryFor t)).getLast? with
      | some a => some ⟨a.contig, a.pos⟩
      | none => List.lookup t d
  | [], d => by simp
  | a :: recs, d => by
    rw [List.foldl_cons, lookup_foldl_tileposStep t recs _, List.filter_cons]
    by_cases hp : a.rel = "=" ∧ a.tag = t
    · rw [if_pos (by simpa [isPrimaryFor] using hp), List.getLast?_cons]
      cases hlast : (recs.filter (isPrimaryFor t)).getLast? with
      | some b => simp [hlast]
      | none =>
        simp only [hlast, Option.getD_none]
        unfold tileposStep
        rw [if_pos hp.1, hp.2, lookup_dictInsert_self]
    · rw [if_neg (by simpa [isPrimaryFor] using hp)]
      cases hlast : (recs.filter (isPrimaryFor t)).getLast? with
      | some b => simp [hlast]
      | none =>
        simp only [hlast]
        unfold tileposStep
        by_cases hrel : a.rel = "="
        · have htag : a.tag ≠ t := fun hc => hp ⟨hrel, hc⟩
          rw [if_pos hrel, lookup_dictInsert_ne _ (Ne.symm htag)]
        · rw [if_neg hrel]

theorem tilepos_eq_foldl_flatten (files : List (List AnnotRecord)) :
    tilepos files = (files.flatten).foldl tileposStep [] := by
  unfold tilepos
  rw [List.foldl_flatten]

theorem nodup_keys_foldl_tileposStep :
    ∀ (recs : List AnnotRecord) (d : List (Tag × Coord)),
    (d.map Prod.fst).Nodup → ((recs.foldl tileposStep d).map Prod.fst).Nodup
  | [], _, h => h
  | a :: recs, d, h => by
    rw [List.foldl_cons]
    refine nodup_keys_foldl_tileposStep recs _ ?_
    unfold tileposStep
    by_cases hrel : a.rel = "="
    · rw [if_pos hrel]
      exact nodup_keys_dictInsert _ _ d h
    · rw [if_neg hrel]
      exact h

theorem tilepos_keys_nodup (files : List (List AnnotRecord)) :
    ((tilepos files).map Prod.fst).Nodup := by
  rw [tilepos_eq_foldl_flatten]
  exact nodup_keys_foldl_tileposStep _ [] (by simp)

theorem mem_iff_lookup_of_nodup_keys {α β : Type} [DecidableEq α] [BEq α] [LawfulBEq α] :
    ∀ (d : List (α × β)), (d.map Prod.fst).Nodup → ∀ (k : α) (v : β),
      ((k, v) ∈ d ↔ List.lookup k d = some v)
  | [], _, k, v => by simp
  | (a, b) :: rest, h, k, v => by
    rw [List.map_cons, List.nodup_cons] at h
    rw [List.mem_cons, List.lookup_cons]
    by_cases hk : k = a
    · subst hk
      have hbeq : (k == k) = true := by simp
      simp only [hbeq]
      constructor
      · rintro (he | hm)
        · have hv : v = b := congrArg Prod.snd he
          exact congrArg some hv.symm
        · exact absurd (List.mem_map_of_mem Prod.fst hm) h.1
      · rintro he
        exact Or.inl (by simpa using he.symm)
    · have hbeq : (k == a) = false := by simp [hk]
      simp only [hbeq]
      rw [← mem_iff_lookup_of_nodup_keys rest h.2 k v]
      constructor
      · rintro (he | hm)
        · exact absurd (congrArg Prod.fst he) hk
        · exact hm
      · exact Or.inr

/-- Under coordinate-consistency of the primary records, the `tilepos`
lookup is independent of the file listing order. -/
theorem lookup_tilepos_perm (files1 files2 : List (List AnnotRecord))
    (hperm : files1.Perm files2)
    (hcons : ∀ a1 ∈ files1.flatten, ∀ a2 ∈ files1.flatten,
      a1.rel = "=" → a2.rel = "=" → a1.tag = a2.tag →
      a1.contig = a2.contig ∧ a1.pos = a2.pos)
    (t : Tag) : List.lookup t (tilepos files1) = List.lookup t (tilepos files2) := by
  rw [tilepos_eq_foldl_flatten, tilepos_eq_foldl_flatten,
    lookup_foldl_tileposStep, lookup_foldl_tileposStep]
  have hmem : ∀ a : AnnotRecord, a ∈ files1.flatten ↔ a ∈ files2.flatten := by
    intro a
    rw [List.mem_flatten, List.mem_flatten]
    constructor
    · rintro ⟨l, hl, hal⟩
      exact ⟨l, hperm.mem_iff.mp hl, hal⟩
    · rintro ⟨l, hl, hal⟩
      exact ⟨l, hperm.mem_iff.mpr hl, hal⟩
  cases h1 : (files1.flatten.filter (isPrimaryFor t)).getLast? with
  | none =>
    cases h2 : (files2.flatten.filter (isPrimaryFor t)).getLast? with
    | none => rfl
    | some a2 =>
      exfalso
      have ha2 := List.mem_of_mem_getLast? h2
      rw [List.mem_filter] at ha2
      have hmem1 : a2 ∈ files1.flatten.filter (isPrimaryFor t) := by
        rw [List.mem_filter]
        exact ⟨(hmem a2).mpr ha2.1, ha2.2⟩
      rw [List.getLast?_eq_none_iff] at h1
      rw [h1] at hmem1
      exact absurd hmem1 (List.not_mem_nil a2)
  | some a1 =>
    cases h2 : (files2.flatten.filter (isPrimaryFor t)).getLast? with
    | none =>
      exfalso
      have ha1 := List.mem_of_mem_getLast? h1
      rw [List.mem_filter] at ha1
      have hmem2 : a1 ∈ files2.flatten.filter (isPrimaryFor t) := by
        rw [List.mem_filter]
        exact ⟨(hmem a1).mp ha1.1, ha1.2⟩
      rw [List.getLast?_eq_none_iff] at h2
      rw [h2] at hmem2
      exact absurd hmem2 (List.not_mem_nil a1)
    | some a2 =>
      have ha1 := List.mem_of_mem_getLast? h1
      rw [List.mem_filter] at ha1
      have ha2 := List.mem_of_mem_getLast? h2
      rw [List.mem_filter] at ha2
      have hp1 : a1.rel = "=" ∧ a1.tag = t := by simpa [isPrimaryFor] using ha1.2
      have hp2 : a2.rel = "=" ∧ a2.tag = t := by simpa [isPrimaryFor] using ha2.2
      have heq := hcons a1 ha1.1 a2 ((hmem a2).mpr ha2.1) hp1.1 hp2.1
        (hp1.2.trans hp2.2.symm)
      simp [heq.1, heq.2]

theorem tilepos_perm_of_consistent (files1 files2 : List (List AnnotRecord))
    (hperm : files1.Perm files2)
    (hcons : ∀ a1 ∈ files1.flatten, ∀ a2 ∈ files1.flatten,
      a1.rel = "=" → a2.rel = "=" → a1.tag = a2.tag →
      a1.contig = a2.contig ∧ a1.pos = a2.pos) :
    (tilepos files1).Perm (tilepos files2) := by
  apply List.perm_of_nodup_nodup_toFinset_eq
  · exact List.Nodup.of_map Prod.fst (tilepos_keys_nodup files1)
  · exact List.Nodup.of_map Prod.fst (tilepos_keys_nodup files2)
  · ext x
    obtain ⟨t, c⟩ := x
    rw [List.mem_toFinset, List.mem_toFinset,
      mem_iff_lookup_of_nodup_keys _ (tilepos_keys_nodup files1),
      mem_iff_lookup_of_nodup_keys _ (tilepos_keys_nodup files2),
      lookup_tilepos_perm files1 files2 hperm hcons]

/-- Every `tilepos` entry comes from some primary record of the scan. -/
theorem mem_tilepos_record (files : List (List AnnotRecord)) {t : Tag} {c : Coord}
    (h : (t, c) ∈ tilepos files) :
    ∃ a ∈ files.flatten, a.rel = "=" ∧ a.tag = t ∧ c = ⟨a.contig, a.pos⟩ := by
  rw [mem_iff_lookup_of_nodup_keys _ (tilepos_keys_nodup files),
    tilepos_eq_foldl_flatten, lookup_foldl_tileposStep] at h
  cases hlast : (files.flatten.filter (isPrimaryFor t)).getLast? with
  | none =>
    rw [hlast] at h
    simp at h
  | some a =>
    rw [hlast] at h
    have ha := List.mem_of_mem_getLast? hlast
    rw [List.mem_filter] at ha
    have hp : a.rel = "=" ∧ a.tag = t := by simpa [isPrimaryFor] using ha.2
    refine ⟨a, ha.1, hp.1, hp.2, ?_⟩
    exact (Option.some.inj h).symm

/-- With pairwise-distinct tags and tag-injective sort keys the sorted
item sequence is strictly sorted. -/
theorem sortedItems_strict_sorted (d : List (Tag × Coord))
    (hnd : (d.map Prod.fst).Nodup)
    (hinj : ∀ a ∈ d, ∀ b ∈ d, a.1 ≠ b.1 → sortKey a.2 ≠ sortKey b.2) :
    (sortedItems d).Pairwise (fun a b => sortKey a.2 < sortKey b.2) := by
  have hle := sortedItems_pairwise d
  have hd : d.Pairwise (fun a b => a.1 ≠ b.1) := by
    rw [List.Nodup, List.pairwise_map] at hnd
    exact hnd
  have hne : (sortedItems d).Pairwise (fun a b => a.1 ≠ b.1) :=
    ((sortedItems_perm d).pairwise_iff (fun h => h.symm)).mpr hd
  refine (hle.and hne).imp_of_mem ?_
  intro a b ha hb hab
  exact lt_of_le_of_ne hab.1
    (hinj a ((sortedItems_perm d).mem_iff.mp ha) b ((sortedItems_perm d).mem_iff.mp hb) hab.2)

/-- Two tilepos dicts with the same entries, pairwise-distinct tags and
tag-injective sort keys sort to the same sequence. -/
theorem sortedItems_eq_of_perm_inj (d1 d2 : List (Tag × Coord))
    (hperm : d1.Perm d2)
    (hnd : (d1.map Prod.fst).Nodup)
    (hinj : ∀ a ∈ d1, ∀ b ∈ d1, a.1 ≠ b.1 → sortKey a.2 ≠ sortKey b.2) :
    sortedItems d1 = sortedItems d2 := by
  haveI : IsAntisymm (Tag × Coord) (fun a b => sortKey a.2 < sortKey b.2) :=
    ⟨fun a b h1 h2 => absurd h2 (lt_asymm h1)⟩
  have hnd2 : (d2.map Prod.fst).Nodup := ((hperm.map Prod.fst).nodup_iff).mp hnd
  have hinj2 : ∀ a ∈ d2, ∀ b ∈ d2, a.1 ≠ b.1 → sortKey a.2 ≠ sortKey b.2 :=
    fun a ha b hb => hinj a (hperm.mem_iff.mpr ha) b (hperm.mem_iff.mpr hb)
  exact List.eq_of_perm_of_sorted
    ((sortedItems_perm d1).trans (hperm.trans (sortedItems_perm d2).symm))
    (sortedItems_strict_sorted d1 hnd hinj)
    (sortedItems_strict_sorted d2 hnd2 hinj2)

/-- C3 (amended): two runs on the same score matrix whose annotation
file lists are permutations of each other produce the same series and
the same CSV export, PROVIDED that (a) all primary records agree on each
tag's coordinate, and (b) distinct tags never share a sort key.
Without (a) the last-write-wins dict, and without (b) the stable sort's
tie-breaking by dict insertion order, make the output depend on the
listing order (see the counterexample). -/
theorem listing_order_independence (columns : List Column)
    (files1 files2 : List (List AnnotRecord))
    (hperm : files1.Perm files2)
    (hcons : ∀ a1 ∈ files1.flatten, ∀ a2 ∈ files1.flatten,
      a1.rel = "=" → a2.rel = "=" → a1.tag = a2.tag →
      a1.contig = a2.contig ∧ a1.pos = a2.pos)
    (hinj : ∀ a1 ∈ files1.flatten, ∀ a2 ∈ files1.flatten,
      a1.rel = "=" → a2.rel = "=" → a1.tag ≠ a2.tag →
      sortKey ⟨a1.contig, a1.pos⟩ ≠ sortKey ⟨a2.contig, a2.pos⟩) :
    series columns files1 = series columns files2 ∧
    ∀ (threshold : ℚ) (outPath : String),
      csvExport threshold outPath columns files1
        = csvExport threshold outPath columns files2 := by
  have hsorted : sortedItems (tilepos files1) = sortedItems (tilepos files2) := by
    apply sortedItems_eq_of_perm_inj _ _
      (tilepos_perm_of_consistent files1 files2 hperm hcons) (tilepos_keys_nodup files1)
    intro a ha b hb hne
    obtain ⟨t1, c1⟩ := a
    obtain ⟨t2, c2⟩ := b
    obtain ⟨ra, hra, hrela, htaga, hca⟩ := mem_tilepos_record files1 ha
    obtain ⟨rb, hrb, hrelb, htagb, hcb⟩ := mem_tilepos_record files1 hb
    have htagne : ra.tag ≠ rb.tag := by
      rw [htaga, htagb]
      exact hne
    have := hinj ra hra rb hrb hrela hrelb htagne
    rw [hca, hcb]
    exact this
  constructor
  · unfold series
    rw [hsorted]
  · intro threshold outPath
    unfold csvExport
    rw [hsorted]

/-- Counterexample to C3 as stated: two listings of the same two
annotation files, each holding one primary record for tag 1 but with
different coordinates.  The last-write-wins `tilepos` keeps whichever
file was listed second, so the emitted row sequences differ. -/
theorem listing_order_counterexample :
    ([[⟨1, "=", "chr1", 100⟩], [⟨1, "=", "chr2", 200⟩]] : List (List AnnotRecord)).Perm
        [[⟨1, "=", "chr2", 200⟩], [⟨1, "=", "chr1", 100⟩]] ∧
    series [⟨1, 5⟩] [[⟨1, "=", "chr1", 100⟩], [⟨1, "=", "chr2", 200⟩]]
      ≠ series [⟨1, 5⟩] [[⟨1, "=", "chr2", 200⟩], [⟨1, "=", "chr1", 100⟩]] := by
  decide

/-- Witness for C3 (amended) at a concrete pair of listings satisfying
both side conditions. -/
theorem listing_order_independence_witness :
    series [⟨1, 5⟩, ⟨2, 7⟩] [[⟨1, "=", "chr1", 100⟩], [⟨2, "=", "chr2", 50⟩]]
      = series [⟨1, 5⟩, ⟨2, 7⟩] [[⟨2, "=", "chr2", 50⟩], [⟨1, "=", "chr1", 100⟩]] :=
  (listing_order_independence [⟨1, 5⟩, ⟨2, 7⟩]
    [[⟨1, "=", "chr1", 100⟩], [⟨2, "=", "chr2", 50⟩]]
    [[⟨2, "=", "chr2", 50⟩], [⟨1, "=", "chr1", 100⟩]]
    (by decide) (by decide) (by decide)).1

end Lightning
